import Mathlib

/-!
Shallow embedding of `be/src/vec/exec/scan/hudi_jni_reader.cpp`
(class `doris::vectorized::HudiJniReader`).

Strings are modelled as lists of characters so that joining and splitting
can be reasoned about structurally.  The JNI bridge object
(`JniConnector`, not part of the sources here) is modelled from the
specification as a lifecycle state machine whose remote outcomes are
supplied as oracle arguments.
-/

/-- Character-list strings: the model of `std::string`. -/
abbrev Str := List Char

/-- Convert a Lean string literal to the character-list model. -/
def strOf (s : String) : Str := s.toList

/-- Native status vocabulary: `Status::OK`, the invalid-bridge-state error,
and remote-side errors carrying an error code. -/
inductive Status where
  | ok : Status
  | invalidState : Status
  | remoteError : Nat → Status
deriving DecidableEq, Repr

/-- Bridge-handle calls the adapter can make, recorded as a trace so that
claims such as "`open` is not called" are statable. -/
inductive BridgeCall where
  | callInit : BridgeCall
  | callOpen : BridgeCall
  | callNext : BridgeCall
  | callClose : BridgeCall
deriving DecidableEq, Repr

/-- The join used by the constructor: concatenation of the elements with the
separator between consecutive elements, empty result for an empty list. -/
def join (v : List Str) (sep : Str) : Str :=
  match v with
  | [] => []
  | [x] => x
  | x :: xs => x ++ sep ++ join xs sep

/-- Split a string at every occurrence of the character `c`. -/
def splitChar (c : Char) : Str → List Str
  | [] => [[]]
  | x :: xs =>
    if x = c then [] :: splitChar c xs
    else
      match splitChar c xs with
      | [] => [[x]]
      | h :: t => (x :: h) :: t

/-- First-match lookup in an association list of strings (the observable
content of `std::map<String, String>`). -/
def lookupStr (m : List (Str × Str)) (k : Str) : Option Str :=
  match m with
  | [] => none
  | p :: t => if p.fst = k then some p.snd else lookupStr t k

/-- Insert-or-assign, the behaviour of `std::map::operator[]` followed by
assignment: overwrite the existing binding, else append a new one. -/
def mapAssign (m : List (Str × Str)) (k v : Str) : List (Str × Str) :=
  if m.any (fun p => p.fst = k) then
    m.map (fun p => if p.fst = k then (k, v) else p)
  else m ++ [(k, v)]

/-- Stand-in for `TypeDescriptor`: an opaque value copied between maps. -/
abbrev TypeDescriptor := Str

/-- Slot descriptor: the parts of `SlotDescriptor` the reader consults,
namely `col_name()` and `type()`. -/
structure SlotDescriptor where
  col_name : Str
  type : TypeDescriptor
deriving DecidableEq, Repr

/-- The fields of `THudiFileDesc` read by the constructor. -/
structure THudiFileDesc where
  base_path : Str
  data_file_path : Str
  data_file_length : Int
  delta_logs : List Str
  column_names : List Str
  column_types : List Str
  instant_time : Str
  serde : Str
  input_format : Str
deriving DecidableEq, Repr

/-- The field of `TFileScanRangeParams` read by the constructor: the
free-form storage properties.  The C++ field is a `std::map`, so its keys
are pairwise distinct; theorems that need this take it as a hypothesis. -/
structure TFileScanRangeParams where
  properties : List (Str × Str)
deriving DecidableEq, Repr

/-- Modelled from the spec: stand-in for `ColumnValueRangeType`, a
per-column min/max bound descriptor (`ColumnValueRangeType` is declared
outside these sources); the adapter only stores a reference to the map. -/
abbrev ColumnValueRangeType := Int × Int

/-- The predicate-range map handed to `init_reader`. -/
abbrev ColnameToValueRange := List (Str × ColumnValueRangeType)

/-- The constant `HudiJniReader::HADOOP_FS_PREFIX`. -/
def hadoopFsPfx : Str := strOf "hadoop_fs."

/-- The ten fixed scanner keys inserted by the constructor, in the order of
the initializer list. -/
def reservedKeys : List Str :=
  [strOf "base_path", strOf "data_file_path", strOf "data_file_length",
   strOf "delta_file_paths", strOf "hudi_column_names",
   strOf "hudi_column_types", strOf "required_fields",
   strOf "instant_time", strOf "serde", strOf "input_format"]

/-- Parameter assembly performed by the `HudiJniReader` constructor: the
initializer list of the `params` map followed by the loop inserting each
storage property under `HADOOP_FS_PREFIX + key`. -/
def buildParams (scan_params : TFileScanRangeParams)
    (hudi_params : THudiFileDesc)
    (file_slot_descs : List SlotDescriptor) : List (Str × Str) :=
  let required_fields := file_slot_descs.map SlotDescriptor.col_name
  let base : List (Str × Str) :=
    [(strOf "base_path", hudi_params.base_path),
     (strOf "data_file_path", hudi_params.data_file_path),
     (strOf "data_file_length", strOf (toString hudi_params.data_file_length)),
     (strOf "delta_file_paths", join hudi_params.delta_logs (strOf ",")),
     (strOf "hudi_column_names", join hudi_params.column_names (strOf ",")),
     (strOf "hudi_column_types", join hudi_params.column_types (strOf "#")),
     (strOf "required_fields", join required_fields (strOf ",")),
     (strOf "instant_time", hudi_params.instant_time),
     (strOf "serde", hudi_params.serde),
     (strOf "input_format", hudi_params.input_format)]
  scan_params.properties.foldl
    (fun m kv => mapAssign m (hadoopFsPfx ++ kv.fst) kv.snd) base

/-- Modelled from the spec: lifecycle states of the Bridge Handle
(`JniConnector`, declared outside these sources), section 4.2. -/
inductive BState where
  | constructed : BState
  | initialized : BState
  | opened : BState
  | draining : BState
  | closed : BState
deriving DecidableEq, Repr

/-- Modelled from the spec: the Bridge Handle, reduced to its lifecycle
state.  Remote-side outcomes of each call are oracle arguments. -/
structure Bridge where
  state : BState
deriving DecidableEq, Repr

/-- Modelled from the spec: `init` forwards predicate metadata; valid only
once, directly after construction; out-of-order calls fail with the
invalid-state error. -/
def Bridge.init (b : Bridge) (remote : Status) : Status × Bridge :=
  match b.state with
  | BState.constructed =>
    match remote with
    | Status.ok => (Status.ok, ⟨BState.initialized⟩)
    | e => (e, b)
  | _ => (Status.invalidState, b)

/-- Modelled from the spec: `open` allocates remote resources; valid only
after a successful `init`; may fail with a remote error. -/
def Bridge.open_reader (b : Bridge) (remote : Status) : Status × Bridge :=
  match b.state with
  | BState.initialized =>
    match remote with
    | Status.ok => (Status.ok, ⟨BState.opened⟩)
    | e => (e, b)
  | _ => (Status.invalidState, b)

/-- Modelled from the spec: `get_nex_block` pulls one batch; valid in the
opened and draining states, where the remote outcome (status, rows read,
end-of-stream flag) is passed through; in any other state, in particular
after `close`, it fails with the invalid-state error and produces no data. -/
def Bridge.get_nex_block (b : Bridge) (remote : Status × Nat × Bool) :
    Status × Nat × Bool × Bridge :=
  match b.state with
  | BState.opened => (remote.1, remote.2.1, remote.2.2, ⟨BState.draining⟩)
  | BState.draining => (remote.1, remote.2.1, remote.2.2, ⟨BState.draining⟩)
  | _ => (Status.invalidState, 0, false, b)

/-- Modelled from the spec: `close` releases remote resources, is reachable
from every state, and repeating it is a no-op returning success. -/
def Bridge.close (b : Bridge) (remote : Status) : Status × Bridge :=
  match b.state with
  | BState.closed => (Status.ok, b)
  | _ => (remote, ⟨BState.closed⟩)

/-- The adapter state: the constructor arguments it stores, the parameter
map it hands to the remote reader at construction, the stored
predicate-range reference, and the bridge handle. -/
structure HudiJniReader where
  scan_params : TFileScanRangeParams
  hudi_params : THudiFileDesc
  file_slot_descs : List SlotDescriptor
  params : List (Str × Str)
  colname_to_value_range : Option ColnameToValueRange
  jni_connector : Bridge
deriving DecidableEq, Repr

/-- The `HudiJniReader` constructor: stores its arguments, assembles the
parameter map and constructs the bridge handle (remote object created
eagerly, no predicate ranges stored yet). -/
def mkHudiJniReader (scan_params : TFileScanRangeParams)
    (hudi_params : THudiFileDesc)
    (file_slot_descs : List SlotDescriptor) : HudiJniReader :=
  { scan_params := scan_params
    hudi_params := hudi_params
    file_slot_descs := file_slot_descs
    params := buildParams scan_params hudi_params file_slot_descs
    colname_to_value_range := none
    jni_connector := ⟨BState.constructed⟩ }

/-- Result of `get_next_block`: the returned status, the two out-parameters
`read_rows` and `eof`, the adapter afterwards, and the bridge calls made. -/
structure NextBlockResult where
  status : Status
  read_rows : Nat
  eof : Bool
  reader : HudiJniReader
  calls : List BridgeCall
deriving DecidableEq, Repr

/-- `HudiJniReader::get_next_block`: delegate to the bridge; on error
return it; on success, if `eof` was set, close the bridge and return the
close status (RETURN_IF_ERROR on the close followed by `Status::OK` makes
the returned status exactly the close status); else return OK. -/
def HudiJniReader.get_next_block (r : HudiJniReader)
    (remoteNext : Status × Nat × Bool) (remoteClose : Status) :
    NextBlockResult :=
  let res := r.jni_connector.get_nex_block remoteNext
  let st := res.1
  let rows := res.2.1
  let eof := res.2.2.1
  let b₁ := res.2.2.2
  if st = Status.ok then
    if eof then
      let cres := Bridge.close b₁ remoteClose
      ⟨cres.1, rows, eof, { r with jni_connector := cres.2 },
        [BridgeCall.callNext, BridgeCall.callClose]⟩
    else
      ⟨Status.ok, rows, eof, { r with jni_connector := b₁ },
        [BridgeCall.callNext]⟩
  else
    ⟨st, rows, eof, { r with jni_connector := b₁ }, [BridgeCall.callNext]⟩

/-- Result of `init_reader`: returned status, the adapter afterwards, and
the bridge calls made. -/
structure InitResult where
  status : Status
  reader : HudiJniReader
  calls : List BridgeCall
deriving DecidableEq, Repr

/-- `HudiJniReader::init_reader`: store the predicate-range reference,
then RETURN_IF_ERROR on the bridge `init`, then return the bridge `open`
result. -/
def HudiJniReader.init_reader (r : HudiJniReader)
    (ranges : ColnameToValueRange) (remoteInit remoteOpen : Status) :
    InitResult :=
  let r₁ := { r with colname_to_value_range := some ranges }
  let ires := r₁.jni_connector.init remoteInit
  if ires.1 = Status.ok then
    let ores := Bridge.open_reader ires.2 remoteOpen
    ⟨ores.1, { r₁ with jni_connector := ores.2 },
      [BridgeCall.callInit, BridgeCall.callOpen]⟩
  else
    ⟨ires.1, { r₁ with jni_connector := ires.2 }, [BridgeCall.callInit]⟩

/-- `emplace` on `std::unordered_map`: insert only if the key is absent. -/
def emplaceType (m : List (Str × TypeDescriptor)) (k : Str)
    (v : TypeDescriptor) : List (Str × TypeDescriptor) :=
  match lookupStr m k with
  | some _ => m
  | none => m ++ [(k, v)]

/-- First slot descriptor carrying a given column name, and its type: the
value `get_columns` is expected to associate with that name. -/
def findType (descs : List SlotDescriptor) (n : Str) : Option TypeDescriptor :=
  match descs with
  | [] => none
  | d :: t => if d.col_name = n then some d.type else findType t n

/-- Result of `get_columns`: returned status, the name-to-type map, the
missing-columns set, and the bridge calls made (none). -/
structure ColumnsResult where
  status : Status
  name_to_type : List (Str × TypeDescriptor)
  missing_cols : List Str
  calls : List BridgeCall
deriving DecidableEq, Repr

/-- `HudiJniReader::get_columns`: emplace each slot descriptor name and
type into the caller-supplied map, touch nothing else, return OK. -/
def HudiJniReader.get_columns (r : HudiJniReader)
    (name_to_type : List (Str × TypeDescriptor)) (missing_cols : List Str) :
    ColumnsResult :=
  ⟨Status.ok,
   r.file_slot_descs.foldl (fun m d => emplaceType m d.col_name d.type)
     name_to_type,
   missing_cols, []⟩

/-- Modelled from the spec: the query-planning layer (outside these
sources) supplies slot descriptors drawn from the scan range column list,
section 3, RequiredFields. -/
def ValidSlotDescs (descs : List SlotDescriptor)
    (hudi_params : THudiFileDesc) : Prop :=
  ∀ d ∈ descs, d.col_name ∈ hudi_params.column_names

instance (descs : List SlotDescriptor) (hudi_params : THudiFileDesc) :
    Decidable (ValidSlotDescs descs hudi_params) :=
  inferInstanceAs (Decidable (∀ d ∈ descs, _))

/-- Scan-range description of the concrete scenario in the spec, section
8: two delta logs, two columns, one required field. -/
def hudiC3 : THudiFileDesc :=
  { base_path := strOf "/t"
    data_file_path := strOf "/t/f1"
    data_file_length := 100
    delta_logs := [strOf "/t/.log1", strOf "/t/.log2"]
    column_names := [strOf "id", strOf "name"]
    column_types := [strOf "int", strOf "string"]
    instant_time := strOf "20240101"
    serde := strOf "s"
    input_format := strOf "f" }

/-- Scan parameters with no storage properties. -/
def scanC3 : TFileScanRangeParams := { properties := [] }

/-- Slot descriptors requesting only the `id` column. -/
def descsC3 : List SlotDescriptor :=
  [{ col_name := strOf "id", type := strOf "int" }]

/-- Scan parameters with one storage property whose key equals the
reserved key `base_path`. -/
def scanBaseProp : TFileScanRangeParams :=
  { properties := [(strOf "base_path", strOf "x")] }

/-- Scan parameters with two storage properties. -/
def scanTwoProps : TFileScanRangeParams :=
  { properties := [(strOf "fs.s3a.endpoint", strOf "e"),
                   (strOf "fs.s3a.access.key", strOf "k")] }

/-- Scan-range description with columns `a`, `b`, `c`. -/
def hudiABC : THudiFileDesc :=
  { hudiC3 with column_names := [strOf "a", strOf "b", strOf "c"],
                column_types := [strOf "int", strOf "int", strOf "int"] }

/-- Slot descriptors requesting `c` then `a`: projection order differs
from column order. -/
def descsCA : List SlotDescriptor :=
  [{ col_name := strOf "c", type := strOf "int" },
   { col_name := strOf "a", type := strOf "int" }]

/-- Scan-range description with no columns at all. -/
def hudiNoCols : THudiFileDesc :=
  { hudiC3 with column_names := [], column_types := [] }

/-- A freshly constructed adapter (bridge in the constructed state). -/
def rNew : HudiJniReader := mkHudiJniReader scanC3 hudiC3 descsC3

/-- An adapter whose bridge has been initialized and opened. -/
def rOpen : HudiJniReader :=
  { rNew with jni_connector := ⟨BState.opened⟩ }

/-- A concrete predicate-range map. -/
def rangesW : ColnameToValueRange := [(strOf "id", (0, 10))]

lemma pfx_append_ne (k r : Str) (h : r.take hadoopFsPfx.length ≠ hadoopFsPfx) :
    hadoopFsPfx ++ k ≠ r := by
  intro he
  apply h
  rw [← he, List.take_left]

lemma pfx_ne_reserved (k : Str) : ∀ r ∈ reservedKeys, hadoopFsPfx ++ k ≠ r := by
  intro r hr
  apply pfx_append_ne
  simp only [reservedKeys, List.mem_cons, List.not_mem_nil, or_false] at hr
  rcases hr with rfl | rfl | rfl | rfl | rfl | rfl | rfl | rfl | rfl | rfl <;> decide

lemma pfx_injective : Function.Injective (fun k : Str => hadoopFsPfx ++ k) := by
  intro a b h
  exact List.append_cancel_left h

lemma mapAssign_keys_of_not_mem (m : List (Str × Str)) (k v : Str)
    (h : k ∉ m.map Prod.fst) : mapAssign m k v = m ++ [(k, v)] := by
  unfold mapAssign
  rw [if_neg]
  simp only [List.any_eq_true, decide_eq_true_eq, not_exists]
  rintro p ⟨hp, hpk⟩
  exact h (hpk ▸ List.mem_map_of_mem Prod.fst hp)

lemma buildParams_fold_keys (props : List (Str × Str)) (m : List (Str × Str))
    (hdisj : ∀ kv ∈ props, (hadoopFsPfx ++ kv.fst) ∉ m.map Prod.fst)
    (hnd : (props.map (fun kv => hadoopFsPfx ++ kv.fst)).Nodup) :
    (props.foldl (fun m kv => mapAssign m (hadoopFsPfx ++ kv.fst) kv.snd) m).map Prod.fst
      = m.map Prod.fst ++ props.map (fun kv => hadoopFsPfx ++ kv.fst) := by
  induction props generalizing m with
  | nil => simp
  | cons kv t ih =>
    simp only [List.foldl_cons]
    rw [mapAssign_keys_of_not_mem m _ _ (hdisj kv (List.mem_cons_self kv t))]
    have ht : (t.map (fun kv => hadoopFsPfx ++ kv.fst)).Nodup :=
      (List.nodup_cons.mp hnd).2
    have hhead : (hadoopFsPfx ++ kv.fst) ∉ t.map (fun kv => hadoopFsPfx ++ kv.fst) :=
      (List.nodup_cons.mp hnd).1
    rw [ih (m ++ [(hadoopFsPfx ++ kv.fst, kv.snd)]) ?_ ht]
    · simp
    · intro kv₂ h₂
      simp only [List.map_append, List.mem_append, List.map_cons, List.map_nil,
        List.mem_singleton, not_or]
      constructor
      · exact hdisj kv₂ (List.mem_cons_of_mem kv h₂)
      · intro heq
        have : hadoopFsPfx ++ kv₂.fst ∈ t.map (fun kv => hadoopFsPfx ++ kv.fst) :=
          List.mem_map_of_mem _ h₂
        rw [heq] at this
        exact hhead this

lemma buildParams_keys (scan_params : TFileScanRangeParams)
    (hudi_params : THudiFileDesc) (file_slot_descs : List SlotDescriptor)
    (hnd : (scan_params.properties.map Prod.fst).Nodup) :
    (buildParams scan_params hudi_params file_slot_descs).map Prod.fst
      = reservedKeys
        ++ scan_params.properties.map (fun kv => hadoopFsPfx ++ kv.fst) := by
  unfold buildParams
  rw [buildParams_fold_keys]
  · rfl
  · intro kv _ hm
    have : ∀ r ∈ reservedKeys, hadoopFsPfx ++ kv.fst ≠ r := pfx_ne_reserved kv.fst
    have hmem : hadoopFsPfx ++ kv.fst ∈ reservedKeys := by
      simpa [reservedKeys] using hm
    exact this _ hmem rfl
  · have : (scan_params.properties.map (fun kv => hadoopFsPfx ++ kv.fst))
        = (scan_params.properties.map Prod.fst).map (fun k => hadoopFsPfx ++ k) := by
      rw [List.map_map]
      rfl
    rw [this]
    exact hnd.map pfx_injective

lemma lookupStr_append_one_ne (m : List (Str × Str)) (k₁ v k : Str)
    (h : k₁ ≠ k) : lookupStr (m ++ [(k₁, v)]) k = lookupStr m k := by
  induction m with
  | nil =>
    simp only [List.nil_append, lookupStr]
    rw [if_neg h]
  | cons p t iht =>
    simp only [List.cons_append, lookupStr]
    by_cases hpk : p.fst = k
    · rw [if_pos hpk, if_pos hpk]
    · rw [if_neg hpk, if_neg hpk]
      exact iht

lemma lookupStr_overwrite_ne (m : List (Str × Str)) (k₁ v k : Str)
    (h : k₁ ≠ k) :
    lookupStr (m.map (fun p => if p.fst = k₁ then (k₁, v) else p)) k
      = lookupStr m k := by
  induction m with
  | nil => rfl
  | cons p t iht =>
    simp only [List.map_cons]
    by_cases hp : p.fst = k₁
    · rw [if_pos hp]
      simp only [lookupStr]
      rw [if_neg h, if_neg (hp ▸ h), iht]
    · rw [if_neg hp]
      simp only [lookupStr]
      by_cases hpk : p.fst = k
      · rw [if_pos hpk, if_pos hpk]
      · rw [if_neg hpk, if_neg hpk]
        exact iht

lemma lookupStr_mapAssign_ne (m : List (Str × Str)) (k₁ v k : Str)
    (h : k₁ ≠ k) : lookupStr (mapAssign m k₁ v) k = lookupStr m k := by
  unfold mapAssign
  by_cases hc : m.any (fun p => p.fst = k₁)
  · rw [if_pos hc]
    exact lookupStr_overwrite_ne m k₁ v k h
  · rw [if_neg hc]
    exact lookupStr_append_one_ne m k₁ v k h

lemma lookupStr_fold_props (props : List (Str × Str)) (m : List (Str × Str))
    (k : Str) (h : ∀ kv ∈ props, hadoopFsPfx ++ kv.fst ≠ k) :
    lookupStr
      (props.foldl (fun m kv => mapAssign m (hadoopFsPfx ++ kv.fst) kv.snd) m) k
      = lookupStr m k := by
  induction props generalizing m with
  | nil => rfl
  | cons kv t ih =>
    simp only [List.foldl_cons]
    rw [ih _ (fun kv₂ h₂ => h kv₂ (List.mem_cons_of_mem kv h₂)),
      lookupStr_mapAssign_ne _ _ _ _ (h kv (List.mem_cons_self kv t))]

lemma splitChar_of_not_mem (c : Char) (s : Str) (h : c ∉ s) :
    splitChar c s = [s] := by
  induction s with
  | nil => rfl
  | cons x xs ih =>
    have hx : x ≠ c := fun he => h (he ▸ List.mem_cons_self x xs)
    have hxs : c ∉ xs := fun hm => h (List.mem_cons_of_mem x hm)
    simp only [splitChar]
    rw [if_neg hx, ih hxs]

lemma splitChar_append_cons (c : Char) (x rest : Str) (h : c ∉ x) :
    splitChar c (x ++ c :: rest) = x :: splitChar c rest := by
  induction x with
  | nil =>
    simp [splitChar]
  | cons a t ih =>
    have ha : a ≠ c := fun he => h (he ▸ List.mem_cons_self a t)
    have ht : c ∉ t := fun hm => h (List.mem_cons_of_mem a hm)
    simp only [List.cons_append, splitChar, List.append_eq]
    rw [if_neg ha, ih ht]

lemma splitChar_join (c : Char) (l : List Str) (hne : l ≠ [])
    (h : ∀ s ∈ l, c ∉ s) : splitChar c (join l [c]) = l := by
  induction l with
  | nil => exact absurd rfl hne
  | cons x t iht =>
    cases t with
    | nil =>
      simp only [join]
      exact splitChar_of_not_mem c x (h x (List.mem_cons_self x []))
    | cons y u =>
      have hx : c ∉ x := h x (List.mem_cons_self x (y :: u))
      have hrec : ∀ s ∈ y :: u, c ∉ s :=
        fun s hs => h s (List.mem_cons_of_mem x hs)
      have : join (x :: y :: u) [c] = x ++ c :: join (y :: u) [c] := by
        simp [join]
      rw [this, splitChar_append_cons c x _ hx, iht (by simp) hrec]

lemma lookupStr_buildParams_types (scan_params : TFileScanRangeParams)
    (hudi_params : THudiFileDesc) (file_slot_descs : List SlotDescriptor) :
    lookupStr (buildParams scan_params hudi_params file_slot_descs)
      (strOf "hudi_column_types")
      = some (join hudi_params.column_types (strOf "#")) := by
  unfold buildParams
  rw [lookupStr_fold_props]
  · rfl
  · intro kv _
    exact pfx_ne_reserved kv.fst _ (by simp [reservedKeys])

lemma lookupStr_buildParams_names (scan_params : TFileScanRangeParams)
    (hudi_params : THudiFileDesc) (file_slot_descs : List SlotDescriptor) :
    lookupStr (buildParams scan_params hudi_params file_slot_descs)
      (strOf "hudi_column_names")
      = some (join hudi_params.column_names (strOf ",")) := by
  unfold buildParams
  rw [lookupStr_fold_props]
  · rfl
  · intro kv _
    exact pfx_ne_reserved kv.fst _ (by simp [reservedKeys])

lemma lookupStr_buildParams_required (scan_params : TFileScanRangeParams)
    (hudi_params : THudiFileDesc) (file_slot_descs : List SlotDescriptor) :
    lookupStr (buildParams scan_params hudi_params file_slot_descs)
      (strOf "required_fields")
      = some (join (file_slot_descs.map SlotDescriptor.col_name) (strOf ",")) := by
  unfold buildParams
  rw [lookupStr_fold_props]
  · rfl
  · intro kv _
    exact pfx_ne_reserved kv.fst _ (by simp [reservedKeys])

lemma Bridge.close_state (b : Bridge) (rc : Status) :
    ((Bridge.close b rc).snd).state = BState.closed := by
  unfold Bridge.close
  cases h : b.state <;> simp [h]

lemma Bridge.get_nex_block_closed (b : Bridge) (rn : Status × Nat × Bool)
    (h : b.state = BState.closed) :
    b.get_nex_block rn = (Status.invalidState, 0, false, b) := by
  unfold Bridge.get_nex_block
  rw [h]

lemma get_next_block_eof_close (r : HudiJniReader)
    (rn : Status × Nat × Bool) (rc : Status) (rows : Nat) (b₁ : Bridge)
    (h : r.jni_connector.get_nex_block rn = (Status.ok, rows, true, b₁)) :
    r.get_next_block rn rc
      = ⟨(Bridge.close b₁ rc).fst, rows, true,
         { r with jni_connector := (Bridge.close b₁ rc).snd },
         [BridgeCall.callNext, BridgeCall.callClose]⟩ := by
  unfold HudiJniReader.get_next_block
  rw [h]
  rfl

lemma get_next_block_not_eof (r : HudiJniReader)
    (rn : Status × Nat × Bool) (rc : Status) (rows : Nat) (b₁ : Bridge)
    (h : r.jni_connector.get_nex_block rn = (Status.ok, rows, false, b₁)) :
    r.get_next_block rn rc
      = ⟨Status.ok, rows, false, { r with jni_connector := b₁ },
         [BridgeCall.callNext]⟩ := by
  unfold HudiJniReader.get_next_block
  rw [h]
  rfl

lemma get_next_block_err (r : HudiJniReader)
    (rn : Status × Nat × Bool) (rc : Status) (st : Status) (rows : Nat)
    (eof : Bool) (b₁ : Bridge)
    (h : r.jni_connector.get_nex_block rn = (st, rows, eof, b₁))
    (hst : st ≠ Status.ok) :
    r.get_next_block rn rc
      = ⟨st, rows, eof, { r with jni_connector := b₁ },
         [BridgeCall.callNext]⟩ := by
  unfold HudiJniReader.get_next_block
  rw [h]
  simp only [if_neg hst]

lemma get_next_block_ok_eof_bridge_closed (r : HudiJniReader)
    (rn : Status × Nat × Bool) (rc : Status)
    (hok : (r.get_next_block rn rc).status = Status.ok)
    (heof : (r.get_next_block rn rc).eof = true) :
    ((r.get_next_block rn rc).reader).jni_connector.state = BState.closed := by
  rcases hb : r.jni_connector.get_nex_block rn with ⟨st, rows, eof, b₁⟩
  by_cases hst : st = Status.ok
  · subst hst
    cases eof with
    | true =>
      rw [get_next_block_eof_close r rn rc rows b₁ hb]
      exact Bridge.close_state b₁ rc
    | false =>
      rw [get_next_block_not_eof r rn rc rows b₁ hb] at heof
      exact absurd heof (by simp)
  · rw [get_next_block_err r rn rc st rows eof b₁ hb hst] at hok
    exact absurd hok hst

lemma init_reader_init_ok (r : HudiJniReader) (ranges : ColnameToValueRange)
    (ri ro : Status) (b₁ : Bridge)
    (h : r.jni_connector.init ri = (Status.ok, b₁)) :
    r.init_reader ranges ri ro
      = ⟨(Bridge.open_reader b₁ ro).fst,
         { r with colname_to_value_range := some ranges,
                  jni_connector := (Bridge.open_reader b₁ ro).snd },
         [BridgeCall.callInit, BridgeCall.callOpen]⟩ := by
  unfold HudiJniReader.init_reader
  simp only []
  rw [h]
  rfl

lemma init_reader_init_fail (r : HudiJniReader) (ranges : ColnameToValueRange)
    (ri ro : Status) (st : Status) (b₁ : Bridge)
    (h : r.jni_connector.init ri = (st, b₁)) (hst : st ≠ Status.ok) :
    r.init_reader ranges ri ro
      = ⟨st, { r with colname_to_value_range := some ranges,
                      jni_connector := b₁ },
         [BridgeCall.callInit]⟩ := by
  unfold HudiJniReader.init_reader
  simp only []
  rw [h]
  simp only [if_neg hst]

lemma lookupStr_append_one (m : List (Str × Str)) (k v n : Str) :
    lookupStr (m ++ [(k, v)]) n
      = match lookupStr m n with
        | some w => some w
        | none => if k = n then some v else none := by
  induction m with
  | nil => rfl
  | cons p t ih =>
    simp only [List.cons_append, lookupStr, List.append_eq]
    by_cases hp : p.fst = n
    · rw [if_pos hp, if_pos hp]
    · rw [if_neg hp, if_neg hp, ih]

lemma lookupStr_emplaceType (m : List (Str × TypeDescriptor)) (k v n : Str) :
    lookupStr (emplaceType m k v) n
      = match lookupStr m n with
        | some w => some w
        | none => if k = n then some v else none := by
  unfold emplaceType
  cases hk : lookupStr m k with
  | some w =>
    cases hn : lookupStr m n with
    | some u => simp [hn]
    | none =>
      by_cases hkn : k = n
      · rw [hkn] at hk
        rw [hk] at hn
        exact absurd hn (by simp)
      · simp [hn, if_neg hkn]
  | none => rw [lookupStr_append_one]

lemma lookup_fold_emplace (descs : List SlotDescriptor)
    (m : List (Str × TypeDescriptor)) (n : Str) :
    lookupStr (descs.foldl (fun m d => emplaceType m d.col_name d.type) m) n
      = match lookupStr m n with
        | some w => some w
        | none => findType descs n := by
  induction descs generalizing m with
  | nil =>
    simp only [List.foldl_nil]
    cases h : lookupStr m n <;> simp [findType]
  | cons d t ih =>
    simp only [List.foldl_cons, findType]
    rw [ih (emplaceType m d.col_name d.type), lookupStr_emplaceType]
    cases hn : lookupStr m n with
    | some w => rfl
    | none =>
      by_cases hd : d.col_name = n
      · simp [if_pos hd]
      · simp [if_neg hd]

/-- C1: when the bridge read succeeds and sets eof, `get_next_block`
closes the bridge handle before returning, returns exactly the close
status (so a close failure replaces the successful end-of-stream result),
and reports success only if the close succeeded. -/
theorem c1_eof_closes_before_return (r : HudiJniReader)
    (rn : Status × Nat × Bool) (rc : Status) (rows : Nat) (b₁ : Bridge)
    (h : r.jni_connector.get_nex_block rn = (Status.ok, rows, true, b₁)) :
    BridgeCall.callClose ∈ (r.get_next_block rn rc).calls ∧
    (r.get_next_block rn rc).status = (Bridge.close b₁ rc).fst ∧
    ((r.get_next_block rn rc).status = Status.ok →
      (Bridge.close b₁ rc).fst = Status.ok) := by
  rw [get_next_block_eof_close r rn rc rows b₁ h]
  exact ⟨by simp, rfl, fun hok => hok⟩

/-- Witness for C1: a concrete opened adapter whose read reports
end-of-stream and whose close fails with error 7; the returned status is
that close failure, not OK. -/
theorem c1_witness :
    BridgeCall.callClose
      ∈ (rOpen.get_next_block (Status.ok, 3, true) (Status.remoteError 7)).calls ∧
    (rOpen.get_next_block (Status.ok, 3, true) (Status.remoteError 7)).status
      = (Bridge.close ⟨BState.draining⟩ (Status.remoteError 7)).fst ∧
    ((rOpen.get_next_block (Status.ok, 3, true) (Status.remoteError 7)).status
        = Status.ok →
      (Bridge.close ⟨BState.draining⟩ (Status.remoteError 7)).fst = Status.ok) :=
  c1_eof_closes_before_return rOpen (Status.ok, 3, true) (Status.remoteError 7)
    3 ⟨BState.draining⟩ (by decide)

/-- C2: `init_reader` stores the predicate-range reference, calls bridge
`init` and then `open`, and returns the first failure: a failing `init`
short-circuits (`open` is not called) and its error is returned; after a
successful `init` the `open` result is returned. -/
theorem c2_init_then_open (r : HudiJniReader) (ranges : ColnameToValueRange)
    (ri ro : Status) :
    (r.init_reader ranges ri ro).reader.colname_to_value_range = some ranges ∧
    ((r.jni_connector.init ri).fst ≠ Status.ok →
      (r.init_reader ranges ri ro).status = (r.jni_connector.init ri).fst ∧
      (r.init_reader ranges ri ro).calls = [BridgeCall.callInit]) ∧
    ((r.jni_connector.init ri).fst = Status.ok →
      (r.init_reader ranges ri ro).status
        = (Bridge.open_reader (r.jni_connector.init ri).snd ro).fst ∧
      (r.init_reader ranges ri ro).calls
        = [BridgeCall.callInit, BridgeCall.callOpen]) := by
  rcases hi : r.jni_connector.init ri with ⟨ist, b₁⟩
  by_cases hst : ist = Status.ok
  · subst hst
    rw [init_reader_init_ok r ranges ri ro b₁ hi]
    exact ⟨rfl, fun hne => absurd rfl hne, fun _ => ⟨rfl, rfl⟩⟩
  · rw [init_reader_init_fail r ranges ri ro ist b₁ hi hst]
    exact ⟨rfl, fun _ => ⟨rfl, rfl⟩, fun hok => absurd hok hst⟩

/-- Witness for C2: on a fresh adapter a failing remote `init` (error 3)
is returned as-is and `open` is not among the calls made. -/
theorem c2_witness :
    (rNew.init_reader rangesW (Status.remoteError 3) Status.ok).status
      = Status.remoteError 3 ∧
    (rNew.init_reader rangesW (Status.remoteError 3) Status.ok).calls
      = [BridgeCall.callInit] := by
  have h := (c2_init_then_open rNew rangesW (Status.remoteError 3) Status.ok).2.1
    (by decide)
  rw [show (rNew.jni_connector.init (Status.remoteError 3)).fst
      = Status.remoteError 3 from by decide] at h
  exact h

/-- C10: `init_reader` installs the new predicate-range reference before
the remote calls, so the stored reference is updated even when `init` or
`open` fails and an error status is returned. -/
theorem c10_ranges_stored_even_on_error (r : HudiJniReader)
    (ranges : ColnameToValueRange) (ri ro : Status) :
    (r.init_reader ranges ri ro).reader.colname_to_value_range
      = some ranges := by
  rcases hi : r.jni_connector.init ri with ⟨ist, b₁⟩
  by_cases hst : ist = Status.ok
  · subst hst
    rw [init_reader_init_ok r ranges ri ro b₁ hi]
  · rw [init_reader_init_fail r ranges ri ro ist b₁ hi hst]

/-- C8: once a `get_next_block` call has reported end-of-stream (status
OK with eof set), any further `get_next_block` on the resulting adapter
fails with the invalid-state error and produces no rows. -/
theorem c8_next_after_eos_invalid (r : HudiJniReader)
    (rn rn' : Status × Nat × Bool) (rc rc' : Status)
    (hok : (r.get_next_block rn rc).status = Status.ok)
    (heof : (r.get_next_block rn rc).eof = true) :
    ((r.get_next_block rn rc).reader.get_next_block rn' rc').status
      = Status.invalidState ∧
    ((r.get_next_block rn rc).reader.get_next_block rn' rc').read_rows = 0 ∧
    ((r.get_next_block rn rc).reader.get_next_block rn' rc').eof = false := by
  have hc := get_next_block_ok_eof_bridge_closed r rn rc hok heof
  have hb := Bridge.get_nex_block_closed
    ((r.get_next_block rn rc).reader).jni_connector rn' hc
  rw [get_next_block_err ((r.get_next_block rn rc).reader) rn' rc'
    Status.invalidState 0 false ((r.get_next_block rn rc).reader).jni_connector
    hb (by decide)]
  exact ⟨rfl, rfl, rfl⟩

/-- Witness for C8: after a concrete end-of-stream read, the next call
returns the invalid-state error with zero rows. -/
theorem c8_witness :
    ((rOpen.get_next_block (Status.ok, 2, true) Status.ok).reader.get_next_block
        (Status.ok, 9, false) Status.ok).status = Status.invalidState ∧
    ((rOpen.get_next_block (Status.ok, 2, true) Status.ok).reader.get_next_block
        (Status.ok, 9, false) Status.ok).read_rows = 0 ∧
    ((rOpen.get_next_block (Status.ok, 2, true) Status.ok).reader.get_next_block
        (Status.ok, 9, false) Status.ok).eof = false :=
  c8_next_after_eos_invalid rOpen (Status.ok, 2, true) (Status.ok, 9, false)
    Status.ok Status.ok (by decide) (by decide)

/-- C7: `get_columns` always returns OK, never makes a bridge call, leaves
the missing-columns set untouched (hence empty when passed empty), and the
resulting name-to-type map extends the given one exactly by the first
matching slot descriptor type for each name. -/
theorem c7_get_columns_local (r : HudiJniReader)
    (m : List (Str × TypeDescriptor)) (s : List Str) :
    (r.get_columns m s).status = Status.ok ∧
    (r.get_columns m s).missing_cols = s ∧
    (r.get_columns m s).calls = [] ∧
    ∀ n : Str, lookupStr (r.get_columns m s).name_to_type n
      = match lookupStr m n with
        | some w => some w
        | none => findType r.file_slot_descs n := by
  refine ⟨rfl, rfl, rfl, fun n => ?_⟩
  exact lookup_fold_emplace r.file_slot_descs m n

/-- C3: the concrete scenario of spec section 8: the parameter map binds
delta_file_paths, required_fields and hudi_column_types to the expected
comma- and hash-joined strings. -/
theorem c3_concrete_scenario :
    lookupStr (mkHudiJniReader scanC3 hudiC3 descsC3).params
        (strOf "delta_file_paths") = some (strOf "/t/.log1,/t/.log2") ∧
    lookupStr (mkHudiJniReader scanC3 hudiC3 descsC3).params
        (strOf "required_fields") = some (strOf "id") ∧
    lookupStr (mkHudiJniReader scanC3 hudiC3 descsC3).params
        (strOf "hudi_column_types") = some (strOf "int#string") := by
  decide

/-- C4 counterexample: with zero column names and zero column types, the
types value stored in the map is the empty string, and splitting it by the
hash delimiter yields one entry, not zero, refuting the claim at N = 0. -/
theorem c4_counterexample :
    hudiNoCols.column_names.length = hudiNoCols.column_types.length ∧
    lookupStr (mkHudiJniReader scanC3 hudiNoCols []).params
        (strOf "hudi_column_types") = some (strOf "") ∧
    (splitChar '#' (strOf "")).length ≠ hudiNoCols.column_types.length := by
  decide

/-- C4 amended: for scan ranges with N ≥ 1 column names and N column
types, where no type contains the hash delimiter and no name contains the
comma delimiter, the stored types value splits back into exactly the N
types, the stored names value splits back into exactly the N names, and
the two splits align positionally. -/
theorem c4_types_split_aligned (scan_params : TFileScanRangeParams)
    (hudi_params : THudiFileDesc) (file_slot_descs : List SlotDescriptor)
    (hlen : hudi_params.column_names.length = hudi_params.column_types.length)
    (hne : hudi_params.column_types ≠ [])
    (hhash : ∀ t ∈ hudi_params.column_types, '#' ∉ t)
    (hcomma : ∀ n ∈ hudi_params.column_names, ',' ∉ n) :
    lookupStr (mkHudiJniReader scan_params hudi_params file_slot_descs).params
        (strOf "hudi_column_types")
      = some (join hudi_params.column_types (strOf "#")) ∧
    splitChar '#' (join hudi_params.column_types (strOf "#"))
      = hudi_params.column_types ∧
    splitChar ',' (join hudi_params.column_names (strOf ","))
      = hudi_params.column_names ∧
    (splitChar '#' (join hudi_params.column_types (strOf "#"))).length
      = hudi_params.column_names.length := by
  have hnn : hudi_params.column_names ≠ [] := by
    intro h0
    rw [h0] at hlen
    exact hne (List.length_eq_zero.mp hlen.symm)
  have hts : splitChar '#' (join hudi_params.column_types (strOf "#"))
      = hudi_params.column_types := splitChar_join '#' _ hne hhash
  have hns : splitChar ',' (join hudi_params.column_names (strOf ","))
      = hudi_params.column_names := splitChar_join ',' _ hnn hcomma
  refine ⟨?_, hts, hns, ?_⟩
  · exact lookupStr_buildParams_types scan_params hudi_params file_slot_descs
  · rw [hts, hlen]

/-- Witness for the amended C4 at the concrete scenario scan range. -/
theorem c4_witness :
    lookupStr (mkHudiJniReader scanC3 hudiC3 descsC3).params
        (strOf "hudi_column_types")
      = some (join hudiC3.column_types (strOf "#")) ∧
    splitChar '#' (join hudiC3.column_types (strOf "#"))
      = hudiC3.column_types ∧
    splitChar ',' (join hudiC3.column_names (strOf ","))
      = hudiC3.column_names ∧
    (splitChar '#' (join hudiC3.column_types (strOf "#"))).length
      = hudiC3.column_names.length :=
  c4_types_split_aligned scanC3 hudiC3 descsC3 (by decide) (by decide)
    (by decide) (by decide)

/-- C5: every storage property key enters the map under the fixed
hadoop_fs. namespace, every reserved key is present unprefixed, and the
key list has no duplicates, even if a storage key equals a reserved key. -/
theorem c5_no_key_collision (scan_params : TFileScanRangeParams)
    (hudi_params : THudiFileDesc) (file_slot_descs : List SlotDescriptor)
    (hnd : (scan_params.properties.map Prod.fst).Nodup) :
    (∀ kv ∈ scan_params.properties,
      (hadoopFsPfx ++ kv.fst)
        ∈ (mkHudiJniReader scan_params hudi_params file_slot_descs).params.map
            Prod.fst) ∧
    (∀ rk ∈ reservedKeys,
      rk ∈ (mkHudiJniReader scan_params hudi_params file_slot_descs).params.map
            Prod.fst) ∧
    ((mkHudiJniReader scan_params hudi_params file_slot_descs).params.map
        Prod.fst).Nodup := by
  have hk := buildParams_keys scan_params hudi_params file_slot_descs hnd
  have hparams : (mkHudiJniReader scan_params hudi_params file_slot_descs).params
      = buildParams scan_params hudi_params file_slot_descs := rfl
  rw [hparams, hk]
  refine ⟨?_, ?_, ?_⟩
  · intro kv hkv
    exact List.mem_append_right _ (List.mem_map_of_mem _ hkv)
  · intro rk hrk
    exact List.mem_append_left _ hrk
  · apply List.Nodup.append
    · decide
    · have : (scan_params.properties.map (fun kv => hadoopFsPfx ++ kv.fst))
          = (scan_params.properties.map Prod.fst).map
              (fun k => hadoopFsPfx ++ k) := by
        rw [List.map_map]
        rfl
      rw [this]
      exact hnd.map pfx_injective
    · intro a ha hb
      rcases List.mem_map.mp hb with ⟨kv, _, heq⟩
      exact pfx_ne_reserved kv.fst a ha heq

/-- Witness for C5: a storage property named base_path coexists with the
reserved base_path key without duplication. -/
theorem c5_witness :
    (hadoopFsPfx ++ strOf "base_path")
      ∈ (mkHudiJniReader scanBaseProp hudiC3 descsC3).params.map Prod.fst ∧
    ((mkHudiJniReader scanBaseProp hudiC3 descsC3).params.map Prod.fst).Nodup := by
  have h := c5_no_key_collision scanBaseProp hudiC3 descsC3 (by decide)
  exact ⟨h.1 (strOf "base_path", strOf "x") (by decide), h.2.2⟩

/-- C9: the key list of the assembled map is exactly the ten reserved keys
followed by one hadoop_fs.-prefixed key per storage property, and its size
is 10 plus the number of storage properties. -/
theorem c9_exact_key_set (scan_params : TFileScanRangeParams)
    (hudi_params : THudiFileDesc) (file_slot_descs : List SlotDescriptor)
    (hnd : (scan_params.properties.map Prod.fst).Nodup) :
    (mkHudiJniReader scan_params hudi_params file_slot_descs).params.map Prod.fst
      = reservedKeys
        ++ scan_params.properties.map (fun kv => hadoopFsPfx ++ kv.fst) ∧
    (mkHudiJniReader scan_params hudi_params file_slot_descs).params.length
      = 10 + scan_params.properties.length := by
  have hk := buildParams_keys scan_params hudi_params file_slot_descs hnd
  have hparams : (mkHudiJniReader scan_params hudi_params file_slot_descs).params
      = buildParams scan_params hudi_params file_slot_descs := rfl
  constructor
  · rw [hparams, hk]
  · have hlen : ((buildParams scan_params hudi_params file_slot_descs).map
        Prod.fst).length
        = (reservedKeys
            ++ scan_params.properties.map (fun kv => hadoopFsPfx ++ kv.fst)).length := by
      rw [hk]
    rw [List.length_map, List.length_append, List.length_map] at hlen
    rw [hparams, hlen]
    rfl

/-- Witness for C9: two storage properties yield twelve keys in the stated
order. -/
theorem c9_witness :
    (mkHudiJniReader scanTwoProps hudiC3 descsC3).params.map Prod.fst
      = reservedKeys ++ [hadoopFsPfx ++ strOf "fs.s3a.endpoint",
                         hadoopFsPfx ++ strOf "fs.s3a.access.key"] ∧
    (mkHudiJniReader scanTwoProps hudiC3 descsC3).params.length = 12 := by
  have h := c9_exact_key_set scanTwoProps hudiC3 descsC3 (by decide)
  exact ⟨h.1, h.2⟩

/-- C6: under the caller-side invariant that slot descriptors are drawn
from the scan range column list, every required field is a column of the
scan range, and the required_fields value is the comma-join of the slot
descriptor names in exactly the caller-supplied order. -/
theorem c6_required_fields_order (scan_params : TFileScanRangeParams)
    (hudi_params : THudiFileDesc) (file_slot_descs : List SlotDescriptor)
    (hv : ValidSlotDescs file_slot_descs hudi_params) :
    (∀ n ∈ file_slot_descs.map SlotDescriptor.col_name,
      n ∈ hudi_params.column_names) ∧
    lookupStr (mkHudiJniReader scan_params hudi_params file_slot_descs).params
        (strOf "required_fields")
      = some (join (file_slot_descs.map SlotDescriptor.col_name) (strOf ",")) := by
  constructor
  · intro n hn
    rcases List.mem_map.mp hn with ⟨d, hd, rfl⟩
    exact hv d hd
  · exact lookupStr_buildParams_required scan_params hudi_params file_slot_descs

/-- Witness for C6: columns a, b, c with requested c then a serialize as
the string c,a in projection order. -/
theorem c6_witness :
    strOf "c" ∈ hudiABC.column_names ∧
    lookupStr (mkHudiJniReader scanC3 hudiABC descsCA).params
        (strOf "required_fields") = some (strOf "c,a") := by
  have h := c6_required_fields_order scanC3 hudiABC descsCA (by decide)
  exact ⟨h.1 (strOf "c") (by decide), h.2⟩
